import Mathlib

/-!
Verification development for the `arbiter` package: a command/response
protocol engine over byte streams.  The Go sources are shallowly embedded:
pure functions become Lean functions, the worker's mutable `tcp` struct
becomes explicit state passing, channel sends become explicit result
values, and the external collaborators (Go's `regexp` and `fmt` standard
libraries, and the network connection) are modelled as executable Lean
functions / explicit inputs.  Byte slices and strings are both modelled as
`List Char` (the package only ever treats them as flat byte sequences).
-/

namespace Arbiter

/-!
## Model of the external `regexp` library

The package stores compiled `*regexp.Regexp` values inside `Command` and
uses exactly three operations on them: `MatchString` / `Match` (does the
text contain a match anywhere?) and `Find` (the leftmost match, preferring
the longest match at that position; `nil` when there is no match).  We
model a compiled pattern as a regular-expression syntax tree with the
standard Brzozowski-derivative matcher.
-/

inductive Regex where
  | emp
  | eps
  | char (c : Char)
  | alt (r s : Regex)
  | cat (r s : Regex)
  | star (r : Regex)
deriving Repr, DecidableEq

/-- Does the regular expression accept the empty word? -/
def Regex.nullable : Regex → Bool
  | .emp => false
  | .eps => true
  | .char _ => false
  | .alt r s => r.nullable || s.nullable
  | .cat r s => r.nullable && s.nullable
  | .star _ => true

/-- Brzozowski derivative of a regular expression by one character. -/
def Regex.deriv : Regex → Char → Regex
  | .emp, _ => .emp
  | .eps, _ => .emp
  | .char c, a => if c = a then .eps else .emp
  | .alt r s, a => .alt (r.deriv a) (s.deriv a)
  | .cat r s, a =>
      if r.nullable then .alt (.cat (r.deriv a) s) (s.deriv a)
      else .cat (r.deriv a) s
  | .star r, a => .cat (r.deriv a) (.star r)

/-- Full match: the whole text is accepted by the pattern. -/
def Regex.fullMatch (r : Regex) (s : List Char) : Bool :=
  (s.foldl Regex.deriv r).nullable

/-- Anywhere match, the semantics of Go's `Regexp.Match` / `MatchString`:
some contiguous substring of the text is accepted by the pattern. -/
def Regex.matchA (r : Regex) (s : List Char) : Bool :=
  s.tails.any fun t => t.inits.any fun p => r.fullMatch p

/-- The longest prefix of `s` accepted by `r`, if any (`s.inits` lists
prefixes shortest first, so we search its reverse). -/
def Regex.bestAt (r : Regex) (s : List Char) : Option (List Char) :=
  s.inits.reverse.find? fun p => r.fullMatch p

/-- The leftmost (and, at that position, longest) match of `r` inside `s`,
if any.  This models Go's `Regexp.Find`. -/
def Regex.findIn : Regex → List Char → Option (List Char)
  | r, [] => r.bestAt []
  | r, c :: t =>
      match r.bestAt (c :: t) with
      | some m => some m
      | none => r.findIn t

/-- Go's `Regexp.Find` returns `nil` when there is no match; we model the
`nil` byte slice as `[]`. -/
def Regex.findA (r : Regex) (s : List Char) : List Char :=
  (r.findIn s).getD []

/-- A literal-string pattern (used to instantiate witnesses). -/
def Regex.lit (s : String) : Regex :=
  s.toList.foldr (fun c r => Regex.cat (Regex.char c) r) Regex.eps

theorem Regex.bestAt_eq_some {r : Regex} {s m : List Char}
    (h : r.bestAt s = some m) :
    r.fullMatch m = true ∧ ∃ post, m ++ post = s := by
  have hm : r.fullMatch m = true := List.find?_some h
  have hmem : m ∈ s.inits := List.mem_reverse.mp (List.mem_of_find?_eq_some h)
  exact ⟨hm, (List.mem_inits m s).mp hmem⟩

theorem Regex.bestAt_eq_none {r : Regex} {s : List Char}
    (h : r.bestAt s = none) :
    ∀ p ∈ s.inits, r.fullMatch p = false := by
  intro p hp
  have := List.find?_eq_none.mp h p (List.mem_reverse.mpr hp)
  simpa using this

/-- Whatever `findIn` returns is a contiguous substring of the text that
the pattern fully matches. -/
theorem Regex.findIn_spec (r : Regex) :
    ∀ s m : List Char, r.findIn s = some m →
      r.fullMatch m = true ∧ ∃ pre post, pre ++ (m ++ post) = s := by
  intro s
  induction s with
  | nil =>
      intro m h
      simp only [Regex.findIn] at h
      obtain ⟨hf, post, hp⟩ := Regex.bestAt_eq_some h
      exact ⟨hf, [], post, by simpa using hp⟩
  | cons c t ih =>
      intro m h
      simp only [Regex.findIn] at h
      cases hb : r.bestAt (c :: t) with
      | some m0 =>
          rw [hb] at h
          obtain rfl : m0 = m := by simpa using h
          obtain ⟨hf, post, hp⟩ := Regex.bestAt_eq_some hb
          exact ⟨hf, [], post, by simpa using hp⟩
      | none =>
          rw [hb] at h
          obtain ⟨hf, pre, post, hp⟩ := ih m h
          exact ⟨hf, c :: pre, post, by simp [hp]⟩

theorem Regex.any_inits_eq_false {r : Regex} {s : List Char}
    (h : r.bestAt s = none) :
    (s.inits.any fun p => r.fullMatch p) = false := by
  by_contra hc
  rw [Bool.not_eq_false, List.any_eq_true] at hc
  obtain ⟨p, hp, hfull⟩ := hc
  have := Regex.bestAt_eq_none h p hp
  rw [this] at hfull
  exact Bool.false_ne_true hfull

/-- If the text contains a match anywhere, then `findIn` finds one. -/
theorem Regex.matchA_isSome (r : Regex) :
    ∀ s : List Char, r.matchA s = true → (r.findIn s).isSome = true := by
  intro s
  induction s with
  | nil =>
      intro h
      simp only [Regex.matchA, List.tails, List.inits, List.any_cons,
        List.any_nil, Bool.or_false] at h
      simp only [Regex.findIn, Regex.bestAt, List.inits, List.reverse_cons,
        List.reverse_nil, List.nil_append, List.find?, h, Option.isSome_some]
  | cons c t ih =>
      intro h
      have hsplit : r.matchA (c :: t) =
          (((c :: t).inits.any fun p => r.fullMatch p) || r.matchA t) := by
        simp [Regex.matchA, List.tails]
      rw [hsplit] at h
      simp only [Regex.findIn]
      cases hb : r.bestAt (c :: t) with
      | some m => simp
      | none =>
          have hfalse := Regex.any_inits_eq_false hb
          rw [hfalse, Bool.false_or] at h
          exact ih h

/-!
## Errors (response.go, command file)

Go errors are plain sentinel values here; we model them as an inductive
type, with `transport` standing for arbitrary errors bubbling up from the
underlying stream (net package errors, io.EOF, ...).  A Go `error` value
(possibly `nil`) is `Option Err`.
-/

inductive Err where
  | ErrTimeout
  | ErrBusy
  | ErrNotConnected
  | ErrMatch
  | errUnformedResponse
  | ErrBytesArgs
  | ErrBytesFormat
  | transport (n : Nat)
deriving Repr, DecidableEq

/-!
## Model of the external `fmt` library (printf-style formatting)

`Command.Bytes` feeds its `Prototype` template and the caller's arguments
to `fmt.Sprintf`.  We model the argument values (`...interface{}`) with
`GoVal` (strings and integers suffice for this package) and `Sprintf` with
`sprintfAux`, reproducing the behaviour the package relies on: `%d` / `%s`
verbs, `%%` escapes, and — crucially — Go's error convention of inserting
a literal `"%!"`-prefixed marker into the output for a wrong-count /
wrong-type / wrong-order argument list (`%!d(MISSING)`,
`%!d(string=...)`, `%!(EXTRA ...)`, `%!(NOVERB)`).
-/

inductive GoVal where
  | str (s : String)
  | int (n : Int)
deriving Repr, DecidableEq

def GoVal.render : GoVal → String
  | .str s => s
  | .int n => toString n

def GoVal.typeName : GoVal → String
  | .str _ => "string"
  | .int _ => "int"

def extraArgs : List GoVal → String
  | [] => ""
  | [v] => v.typeName ++ "=" ++ v.render
  | v :: vs => v.typeName ++ "=" ++ v.render ++ ", " ++ extraArgs vs

def sprintfAux : List Char → List GoVal → List Char
  | [], [] => []
  | [], v :: vs => ("%!(EXTRA " ++ extraArgs (v :: vs) ++ ")").toList
  | ['%'], vs => "%!(NOVERB)".toList ++ sprintfAux [] vs
  | '%' :: '%' :: rest, vs => '%' :: sprintfAux rest vs
  | '%' :: 'd' :: rest, [] => "%!d(MISSING)".toList ++ sprintfAux rest []
  | '%' :: 'd' :: rest, GoVal.int n :: vs => (toString n).toList ++ sprintfAux rest vs
  | '%' :: 'd' :: rest, GoVal.str s :: vs =>
      ("%!d(string=" ++ s ++ ")").toList ++ sprintfAux rest vs
  | '%' :: 's' :: rest, [] => "%!s(MISSING)".toList ++ sprintfAux rest []
  | '%' :: 's' :: rest, GoVal.str s :: vs => s.toList ++ sprintfAux rest vs
  | '%' :: 's' :: rest, GoVal.int n :: vs =>
      ("%!s(int=" ++ toString n ++ ")").toList ++ sprintfAux rest vs
  | '%' :: c :: rest, vs => '%' :: '!' :: c :: "(BADVERB)".toList ++ sprintfAux rest vs
  | c :: rest, vs => c :: sprintfAux rest vs

/-- `strings.Contains(str, "%!")`: does the formatted text contain the
unconsumed-verb marker? -/
def hasMarker : List Char → Bool
  | '%' :: '!' :: _ => true
  | _ :: rest => hasMarker rest
  | [] => false

/-!
## Command model (Command struct and Command.Bytes)
-/

structure Command where
  Name : String := ""
  Timeout : Int := 0
  Prototype : String := ""
  CommandRegexp : Regex := .emp
  Response : Regex := .emp
  Error : Regex := .emp
  Description : String := ""
deriving Repr, DecidableEq

/-- `Command.Bytes`: format the prototype with the supplied args; a `"%!"`
marker in the output means bad arguments (`ErrBytesArgs`); otherwise the
output must contain a match of `CommandRegexp` (Go `MatchString`, an
anywhere-match) or `ErrBytesFormat` is returned; otherwise nil error. -/
def Command.Bytes (c : Command) (v : List GoVal) : List Char × Option Err :=
  let str := sprintfAux c.Prototype.toList v
  if hasMarker str then (str, some Err.ErrBytesArgs)
  else if !(c.CommandRegexp.matchA str) then (str, some Err.ErrBytesFormat)
  else (str, none)

/-!
## Response / request envelopes (response.go)
-/

structure Response where
  Bytes : List Char := []
  Error : Option Err := none
  Duration : Int := 0
deriving Repr, DecidableEq

structure request where
  Command : Command := {}
  bytes : List Char := []
deriving Repr, DecidableEq

/-!
## The connection worker (tcp.go)

The Go `tcp` struct's worker-owned mutable fields become a Lean record;
the connection, ticker and channel handles are not data and are modelled
at the call sites: a socket read becomes explicit `(bytes, error)` inputs
to `sock2ibuf`, a socket write becomes an explicit `Option Err` outcome
input to `handleIncoming`, and a channel send becomes part of the result
value.  The `state` int takes only the three iota constants, modelled as
an inductive type; times (`time.Time`, `time.Duration`) are integer
nanosecond counts, with `now` passed explicitly.
-/

inductive State where
  | idle
  | waitingOnReply
  | responseFormed
deriving Repr, DecidableEq

structure tcp where
  alive : Bool := false
  addr : String := ""
  ibuf : List Char := []
  request : request := {}
  response : Response := {}
  reqTime : Int := 0
  state : State := .idle
  err : Option Err := none
deriving Repr, DecidableEq

/-- The outcome of one read attempt on the socket, as seen by
`sock2ibuf`: Go's `err.(net.Error)` type assertion plus `Timeout()` check
partitions non-nil errors into timeout-kind and everything else. -/
inductive ReadErr where
  | timeoutKind
  | other (e : Err)
deriving Repr, DecidableEq

/-- `sock2ibuf` (tcp.go:142-154): append the bytes read to the incoming
buffer; a timeout-kind error clears `t.err`, any other non-nil error is
stored in `t.err` — and then the final statement of the Go function
(`t.err = nil`, tcp.go:153) unconditionally clears `t.err` again. -/
def tcp.sock2ibuf (t : tcp) (readBytes : List Char) (readErr : Option ReadErr) : tcp :=
  let t1 := { t with ibuf := t.ibuf ++ readBytes }
  let t2 :=
    match readErr with
    | some ReadErr.timeoutKind => { t1 with err := none }
    | some (ReadErr.other e) => { t1 with err := some e }
    | none => t1
  { t2 with err := none }

/-- `checkState` (tcp.go:157-186): when `waitingOnReply`, first set the
stored response's error to the internal unformed marker, then check
timeout, then failure match, then success match, in that order; each
terminal case rewrites the stored response via `alterResp` and moves to
`responseFormed`.  Returns the (response, state) pair the Go method
returns, paired with the updated worker. -/
def tcp.checkState (t : tcp) (now : Int) : (Response × State) × tcp :=
  if t.state = State.waitingOnReply then
    let t1 := { t with response := { t.response with Error := some Err.errUnformedResponse } }
    let alterResp := fun (e : Option Err) (bs : List Char) =>
      { t1 with
          response := { Error := e, Bytes := bs, Duration := now - t1.reqTime },
          state := State.responseFormed }
    if now - t1.reqTime > t1.request.Command.Timeout then
      let t2 := alterResp (some Err.ErrTimeout) t1.ibuf
      ((t2.response, t2.state), t2)
    else if t1.request.Command.Error.matchA t1.ibuf then
      let t2 := alterResp (some Err.ErrMatch) t1.ibuf
      ((t2.response, t2.state), t2)
    else if t1.request.Command.Response.matchA t1.ibuf then
      let t2 := alterResp none (t1.request.Command.Response.findA t1.ibuf)
      ((t2.response, t2.state), t2)
    else
      ((t1.response, t1.state), t1)
  else
    ((t.response, t.state), t)

/-- `handleIncoming` (tcp.go:188-206): a request arriving while not idle
is rejected over the response channel with `ErrBusy` — or with the stored
internal error when one is held — leaving the worker untouched.  When
idle, the buffer is truncated, the request bytes are written to the
connection (outcome `writeErr`); a write failure stores and delivers the
error, a success records the request and issue time and moves to
`waitingOnReply`.  The `Option Response` result is what was sent on the
response channel (`none` = nothing sent, request accepted). -/
def tcp.handleIncoming (t : tcp) (r : Arbiter.request) (now : Int) (writeErr : Option Err) :
    tcp × Option Response :=
  if t.state ≠ State.idle then
    let resp : Response :=
      { Bytes := [],
        Error := some (match t.err with | some e => e | none => Err.ErrBusy),
        Duration := 0 }
    (t, some resp)
  else
    let t1 := { t with ibuf := [] }
    match writeErr with
    | some e =>
        ({ t1 with err := some e }, some { Bytes := [], Error := some e, Duration := 0 })
    | none =>
        ({ t1 with request := r, reqTime := now, state := State.waitingOnReply }, none)

/-- What `Control` (tcp.go:124-138) does before blocking on the worker:
either it returns a `Response` immediately (`reply`, no message ever
reaches the worker), or it sends the formed request down the request
channel (`forwarded`) and blocks for the worker's answer. -/
inductive ControlOutcome where
  | reply (r : Response)
  | forwarded (req : request)
deriving Repr, DecidableEq

/-- `Control` (tcp.go:124-138): fail fast with `ErrNotConnected` when the
worker is not alive; otherwise form the bytes with `Command.Bytes` and
short-circuit with the formatting error (in a fresh zero-valued
`Response`) when it is non-nil; otherwise forward the request. -/
def tcp.Control (t : tcp) (cmd : Command) (args : List GoVal) : ControlOutcome :=
  if !t.alive then
    .reply { Bytes := [], Error := some Err.ErrNotConnected, Duration := 0 }
  else
    let be := cmd.Bytes args
    match be.2 with
    | some e => .reply { Bytes := [], Error := some e, Duration := 0 }
    | none => .forwarded { Command := cmd, bytes := be.1 }

/-!
## Concrete fixtures (mirroring the shapes used by the package's tests)
-/

/-- An echo-style command: prototype `"p"`, success pattern `"ok"`, and a
failure pattern that can never match (the tests use `"a^"` for this). -/
def cmdEcho : Command :=
  { Name := "echo", Timeout := 100, Prototype := "p",
    CommandRegexp := Regex.lit "p", Response := Regex.lit "ok", Error := Regex.emp }

/-- A command whose formatted text (`"abc"`) contains a match of its
validation pattern (`"b"`) without being matched in its entirety. -/
def cmdLoose : Command :=
  { Name := "loose", Timeout := 0, Prototype := "abc", CommandRegexp := Regex.lit "b" }

/-- A command requiring one `%d` argument (like the tests' `pingWrong`). -/
def cmdNeedsArg : Command :=
  { Name := "needs-arg", Timeout := 0, Prototype := "%d", CommandRegexp := Regex.lit "x" }

/-- A zero-argument command whose formatted text never matches its own
validation pattern. -/
def cmdBad : Command :=
  { Name := "bad", Timeout := 0, Prototype := "zzz", CommandRegexp := Regex.lit "q" }

def reqEcho : request := { Command := cmdEcho, bytes := "p".toList }

/-- A worker awaiting a reply to `cmdEcho` issued at time 0, with buffer
`"xoky"`: noise byte, then a success match, then more noise. -/
def tWaiting : tcp :=
  { alive := true, ibuf := "xoky".toList, request := reqEcho,
    reqTime := 0, state := State.waitingOnReply }

/-- A busy worker that is additionally holding a stored internal error. -/
def tBusyErr : tcp := { tWaiting with err := some (Err.transport 7) }

/-- An alive, idle worker. -/
def tAlive : tcp := { alive := true }

/-- An idle worker whose buffer still holds stale bytes from a previous
exchange. -/
def tStale : tcp := { alive := true, ibuf := "OLDJUNK".toList }

/-!
## Claim theorems
-/

/-- C1: the claim states that in `sock2ibuf` a timeout-kind read error
leaves the stored internal error nil, and any other non-nil read error is
stored as the worker's internal error and is *still stored when the poll
step returns*.  The code violates the second half: the final statement of
the Go function (`t.err = nil`, tcp.go:153) runs unconditionally after
the error classification, so the stored error is wiped before returning —
which also makes the stored-error branch of `handleIncoming`
("disconnected, etc", tcp.go:191) unreachable from the poller.  This
theorem records the actual behaviour: after every poll step, whatever the
read outcome (timeout error, other error, or no error), the stored
internal error is `none`. -/
theorem C1_sock2ibuf_err_always_cleared (t : tcp) (bs : List Char) (re : Option ReadErr) :
    (t.sock2ibuf bs re).err = none ∧ (t.sock2ibuf bs re).ibuf = t.ibuf ++ bs := by
  cases re with
  | none => exact ⟨rfl, rfl⟩
  | some e => cases e <;> exact ⟨rfl, rfl⟩

/-- C2 (counterexample): the claim requires the formatted text to be
matched *in its entirety* by the validation pattern for a nil error, and
`ErrBytesFormat` otherwise.  For `cmdLoose` the formatted text `"abc"`
carries no `"%!"` marker and is not matched in its entirety by the
pattern (`fullMatch` is false), yet `Bytes` returns a nil error — the
code (tcp side: `MatchString`) only requires a match *anywhere*. -/
theorem C2_counterexample :
    hasMarker (sprintfAux cmdLoose.Prototype.toList []) = false ∧
    cmdLoose.CommandRegexp.fullMatch (sprintfAux cmdLoose.Prototype.toList []) = false ∧
    cmdLoose.Bytes [] = ("abc".toList, none) ∧
    (cmdLoose.Bytes []).2 ≠ some Err.ErrBytesFormat := by decide

/-- C2 (amended): for every command and argument list whose formatting
leaves no unconsumed-verb marker, if the formatted text contains a match
of the validation pattern anywhere, `Bytes` returns that text with a nil
error; otherwise it returns that text with `ErrBytesFormat`. -/
theorem C2_bytes_anywhere_match (c : Command) (v : List GoVal)
    (h : hasMarker (sprintfAux c.Prototype.toList v) = false) :
    (c.CommandRegexp.matchA (sprintfAux c.Prototype.toList v) = true →
        c.Bytes v = (sprintfAux c.Prototype.toList v, none)) ∧
    (c.CommandRegexp.matchA (sprintfAux c.Prototype.toList v) = false →
        c.Bytes v = (sprintfAux c.Prototype.toList v, some Err.ErrBytesFormat)) := by
  constructor <;> intro hm <;> simp only [Command.Bytes, h, hm] <;> simp

theorem C2_witness :
    hasMarker (sprintfAux cmdEcho.Prototype.toList []) = false ∧
    cmdEcho.CommandRegexp.matchA (sprintfAux cmdEcho.Prototype.toList []) = true ∧
    cmdEcho.Bytes [] = (sprintfAux cmdEcho.Prototype.toList [], none) :=
  ⟨by decide, by decide, (C2_bytes_anywhere_match cmdEcho [] (by decide)).1 (by decide)⟩

/-- C3: in `awaiting-reply`, not past the deadline: a failure-pattern
match anywhere in the buffer wins (even if the success pattern also
matches — no assumption about it is needed) and produces `ErrMatch` with
the *entire* buffer as payload; otherwise a success-pattern match
produces a nil error whose payload is exactly the substring found by the
success pattern (a contiguous, fully-matching piece of the buffer), and
the buffer itself is left unchanged in both cases. -/
theorem C3_classification (t : tcp) (now : Int)
    (hs : t.state = State.waitingOnReply)
    (ht : ¬ now - t.reqTime > t.request.Command.Timeout) :
    (t.request.Command.Error.matchA t.ibuf = true →
        (t.checkState now).1 =
          ({ Bytes := t.ibuf, Error := some Err.ErrMatch, Duration := now - t.reqTime },
            State.responseFormed) ∧
        ((t.checkState now).2).ibuf = t.ibuf) ∧
    (t.request.Command.Error.matchA t.ibuf = false →
      t.request.Command.Response.matchA t.ibuf = true →
        (t.checkState now).1 =
          ({ Bytes := t.request.Command.Response.findA t.ibuf, Error := none,
              Duration := now - t.reqTime },
            State.responseFormed) ∧
        ((t.checkState now).2).ibuf = t.ibuf ∧
        ∃ pre post,
          pre ++ (t.request.Command.Response.findA t.ibuf ++ post) = t.ibuf ∧
          t.request.Command.Response.fullMatch
            (t.request.Command.Response.findA t.ibuf) = true) := by
  constructor
  · intro hE
    constructor <;> simp [tcp.checkState, hs, ht, hE]
  · intro hE hR
    have hfind : (t.request.Command.Response.findIn t.ibuf).isSome = true :=
      Regex.matchA_isSome _ _ hR
    obtain ⟨m, hm⟩ := Option.isSome_iff_exists.mp hfind
    have hfa : t.request.Command.Response.findA t.ibuf = m := by
      simp [Regex.findA, hm]
    refine ⟨?_, ?_, ?_⟩
    · simp [tcp.checkState, hs, ht, hE, hR]
    · simp [tcp.checkState, hs, ht, hE, hR]
    · rw [hfa]
      obtain ⟨hfull, pre, post, hp⟩ := Regex.findIn_spec _ _ _ hm
      exact ⟨pre, post, hp, hfull⟩

theorem C3_witness :
    tWaiting.request.Command.Error.matchA tWaiting.ibuf = false ∧
    tWaiting.request.Command.Response.matchA tWaiting.ibuf = true ∧
    (tWaiting.checkState 5).1 =
      ({ Bytes := "ok".toList, Error := none, Duration := 5 }, State.responseFormed) ∧
    ((tWaiting.checkState 5).2).ibuf = "xoky".toList := by
  have h := (C3_classification tWaiting 5 rfl (by decide)).2 (by decide) (by decide)
  exact ⟨by decide, by decide, h.1.trans (by decide), h.2.1.trans (by decide)⟩

/-- C4: in `awaiting-reply`, once the elapsed time since the request was
issued exceeds the command's timeout, `checkState` forms a timeout reply
whose payload is the entire buffer, and it does so with no assumption on
either pattern — the timeout rule fires before the failure or success
pattern is consulted, whatever they would say. -/
theorem C4_timeout_first (t : tcp) (now : Int)
    (hs : t.state = State.waitingOnReply)
    (ht : now - t.reqTime > t.request.Command.Timeout) :
    (t.checkState now).1 =
      ({ Bytes := t.ibuf, Error := some Err.ErrTimeout, Duration := now - t.reqTime },
        State.responseFormed) ∧
    ((t.checkState now).2).state = State.responseFormed ∧
    ((t.checkState now).2).ibuf = t.ibuf ∧
    ((t.checkState now).2).response =
      { Bytes := t.ibuf, Error := some Err.ErrTimeout, Duration := now - t.reqTime } := by
  refine ⟨?_, ?_, ?_, ?_⟩ <;> simp [tcp.checkState, hs, ht]

theorem C4_witness :
    tWaiting.state = State.waitingOnReply ∧
    (1000 : Int) - tWaiting.reqTime > tWaiting.request.Command.Timeout ∧
    tWaiting.request.Command.Response.matchA tWaiting.ibuf = true ∧
    (tWaiting.checkState 1000).1 =
      ({ Bytes := "xoky".toList, Error := some Err.ErrTimeout, Duration := 1000 },
        State.responseFormed) := by
  refine ⟨rfl, by decide, by decide, ?_⟩
  exact ((C4_timeout_first tWaiting 1000 rfl (by decide)).1).trans (by decide)

/-- C5: a request arriving while the worker is not idle is rejected with
`ErrBusy` when no internal error is stored, with the stored internal
error instead when one is held, and the worker (state, buffer, in-flight
request — the whole record) is left unchanged in both cases. -/
theorem C5_busy_reject (t : tcp) (r : Arbiter.request) (now : Int) (we : Option Err)
    (hs : t.state ≠ State.idle) :
    (t.handleIncoming r now we).1 = t ∧
    (t.err = none →
      (t.handleIncoming r now we).2 =
        some { Bytes := [], Error := some Err.ErrBusy, Duration := 0 }) ∧
    (∀ e, t.err = some e →
      (t.handleIncoming r now we).2 =
        some { Bytes := [], Error := some e, Duration := 0 }) := by
  refine ⟨?_, ?_, ?_⟩
  · simp [tcp.handleIncoming, hs]
  · intro h
    simp [tcp.handleIncoming, hs, h]
  · intro e h
    simp [tcp.handleIncoming, hs, h]

theorem C5_witness :
    tWaiting.state ≠ State.idle ∧ tWaiting.err = none ∧
    (tWaiting.handleIncoming reqEcho 0 none).1 = tWaiting ∧
    (tWaiting.handleIncoming reqEcho 0 none).2 =
      some { Bytes := [], Error := some Err.ErrBusy, Duration := 0 } ∧
    tBusyErr.err = some (Err.transport 7) ∧
    (tBusyErr.handleIncoming reqEcho 0 none).2 =
      some { Bytes := [], Error := some (Err.transport 7), Duration := 0 } := by
  refine ⟨by decide, rfl, (C5_busy_reject tWaiting reqEcho 0 none (by decide)).1,
    (C5_busy_reject tWaiting reqEcho 0 none (by decide)).2.1 rfl, rfl, ?_⟩
  exact (C5_busy_reject tBusyErr reqEcho 0 none (by decide)).2.2 (Err.transport 7) rfl

/-- C6: `Control` on a worker that is not alive immediately replies with
`ErrNotConnected` without forwarding anything to the worker, and on an
alive worker a non-nil formatting error from `Command.Bytes` is returned
in an immediate reply, again without forwarding anything. -/
theorem C6_control_fast_paths (t : tcp) (cmd : Command) (args : List GoVal) :
    (t.alive = false →
      t.Control cmd args =
        ControlOutcome.reply { Bytes := [], Error := some Err.ErrNotConnected, Duration := 0 }) ∧
    (∀ e, t.alive = true → (cmd.Bytes args).2 = some e →
      t.Control cmd args =
        ControlOutcome.reply { Bytes := [], Error := some e, Duration := 0 }) := by
  constructor
  · intro h
    simp [tcp.Control, h]
  · intro e ha he
    simp [tcp.Control, ha, he]

theorem C6_witness :
    ({} : tcp).alive = false ∧
    tcp.Control {} cmdEcho [] =
      ControlOutcome.reply { Bytes := [], Error := some Err.ErrNotConnected, Duration := 0 } ∧
    tAlive.alive = true ∧ (cmdBad.Bytes []).2 = some Err.ErrBytesFormat ∧
    tcp.Control tAlive cmdBad [] =
      ControlOutcome.reply { Bytes := [], Error := some Err.ErrBytesFormat, Duration := 0 } := by
  refine ⟨rfl, (C6_control_fast_paths {} cmdEcho []).1 rfl, rfl, by decide, ?_⟩
  exact (C6_control_fast_paths tAlive cmdBad []).2 Err.ErrBytesFormat rfl (by decide)

/-- C7: whenever formatting the prototype with the supplied arguments
leaves a literal `"%!"` unconsumed-verb marker in the text (wrong count,
type or order of arguments), `Bytes` returns that malformed text together
with `ErrBytesArgs`. -/
theorem C7_bytes_marker (c : Command) (v : List GoVal)
    (h : hasMarker (sprintfAux c.Prototype.toList v) = true) :
    c.Bytes v = (sprintfAux c.Prototype.toList v, some Err.ErrBytesArgs) := by
  simp only [Command.Bytes, h]
  simp

theorem C7_witness :
    hasMarker (sprintfAux cmdNeedsArg.Prototype.toList [GoVal.str "hello"]) = true ∧
    cmdNeedsArg.Bytes [GoVal.str "hello"] =
      ("%!d(string=hello)".toList, some Err.ErrBytesArgs) := by
  refine ⟨by decide, ?_⟩
  exact (C7_bytes_marker cmdNeedsArg [GoVal.str "hello"] (by decide)).trans (by decide)

/-- C8: a request accepted while the worker is idle first truncates the
incoming-byte buffer to empty (whatever the subsequent write's outcome),
the accepted worker state is exactly the old one with an empty buffer,
the new request and issue time recorded, and `awaiting-reply` entered;
consequently the very next poll step's buffer consists of the newly read
bytes only — no byte present before the request cycle began can appear in
any classification of that cycle. -/
theorem C8_buffer_truncated (t : tcp) (r : Arbiter.request) (now : Int) (we : Option Err)
    (hs : t.state = State.idle) :
    ((t.handleIncoming r now we).1).ibuf = [] ∧
    (we = none →
      (t.handleIncoming r now we).1 =
        { t with ibuf := [], request := r, reqTime := now, state := State.waitingOnReply }) ∧
    (∀ bs re, (((t.handleIncoming r now none).1).sock2ibuf bs re).ibuf = bs) := by
  refine ⟨?_, ?_, ?_⟩
  · cases we <;> simp [tcp.handleIncoming, hs]
  · intro h
    subst h
    simp [tcp.handleIncoming, hs]
  · intro bs re
    have h1 : (t.handleIncoming r now none).1 =
        { t with ibuf := [], request := r, reqTime := now, state := State.waitingOnReply } := by
      simp [tcp.handleIncoming, hs]
    rw [h1]
    cases re with
    | none => rfl
    | some e => cases e <;> rfl

theorem C8_witness :
    tStale.state = State.idle ∧ tStale.ibuf = "OLDJUNK".toList ∧
    ((tStale.handleIncoming reqEcho 3 none).1).ibuf = [] ∧
    (((tStale.handleIncoming reqEcho 3 none).1).sock2ibuf "ok".toList none).ibuf =
      "ok".toList := by
  refine ⟨rfl, rfl, (C8_buffer_truncated tStale reqEcho 3 none rfl).1, ?_⟩
  exact (C8_buffer_truncated tStale reqEcho 3 none rfl).2.2 "ok".toList none

/-- C9: when the worker is alive and `Command.Bytes` fails, `Control`
replies with a `Response` that carries only the error: its `Bytes` field
is the empty (nil) slice — the malformed diagnostic text that `Bytes`
returned is discarded — and its `Duration` is zero. -/
theorem C9_format_error_reply (t : tcp) (cmd : Command) (args : List GoVal) (e : Err)
    (ha : t.alive = true) (he : (cmd.Bytes args).2 = some e) :
    t.Control cmd args =
      ControlOutcome.reply { Bytes := [], Error := some e, Duration := 0 } := by
  simp [tcp.Control, ha, he]

theorem C9_witness :
    tAlive.alive = true ∧
    (cmdNeedsArg.Bytes [GoVal.str "hello"]).2 = some Err.ErrBytesArgs ∧
    (cmdNeedsArg.Bytes [GoVal.str "hello"]).1 ≠ [] ∧
    tcp.Control tAlive cmdNeedsArg [GoVal.str "hello"] =
      ControlOutcome.reply { Bytes := [], Error := some Err.ErrBytesArgs, Duration := 0 } := by
  refine ⟨rfl, by decide, by decide, ?_⟩
  exact C9_format_error_reply tAlive cmdNeedsArg [GoVal.str "hello"] Err.ErrBytesArgs rfl (by decide)

/-- C10: for a worker in any state other than `awaiting-reply`,
`checkState` is a pure frame: it returns the current stored response and
state and hands back the worker completely unchanged (response, state,
buffer and every other field as they were). -/
theorem C10_frame (t : tcp) (now : Int) (hs : t.state ≠ State.waitingOnReply) :
    t.checkState now = ((t.response, t.state), t) := by
  simp [tcp.checkState, hs]

theorem C10_witness :
    ({} : tcp).state ≠ State.waitingOnReply ∧
    tcp.checkState {} 7 = ((({} : tcp).response, ({} : tcp).state), {}) :=
  ⟨by decide, C10_frame {} 7 (by decide)⟩

end Arbiter
